import Mathlib

/-!
Verification of the merge-join CSV comparator (`csv_compare_2.py`, with the
same core loop as `csv_compare.py`).

The embedding models:
* a CSV row produced by `csv.DictReader` as an association list from column
  name to `Option String` (`none` is Python's `None`, used by `DictReader`
  to pad short rows via its default `restval`);
* Python tuple comparison of string tuples as `keyLt`;
* `get_row_key`, `validate_csv_headers`, the main merge loop of
  `compare_snapshots` and the surrounding validation / setup as `Except`
  computations (an `Except.error` is a raised exception).
-/

namespace CsvCompare

/-- A CSV row as produced by `csv.DictReader`: an ordered association of
column name to cell value, where `none` is Python's `None` (a padded-in
value for a short row). -/
abbrev Row : Type := List (String × Option String)

/-- Python's `str()` applied to a cell value: a string is unchanged, and
`None` prints as `"None"`. -/
def pyStr : Option String → String
  | none => "None"
  | some s => s

/-- Python dict lookup `row[col]` on the association-list model: `none`
means the column is absent from the row, i.e. a `KeyError`. -/
def rowGet (row : Row) (c : String) : Option (Option String) :=
  match row with
  | [] => none
  | (k, v) :: rest => if c = k then some v else rowGet rest c

/-- `get_row_key` (csv_compare_2.py lines 33-40):
`tuple(str(row[col]) for col in key_columns)`, evaluated left to right; the
first column absent from the row raises `KeyError` (modelled as
`Except.error` carrying the column name). -/
def get_row_key (row : Row) (key_columns : List String) : Except String (List String) :=
  match key_columns with
  | [] => Except.ok []
  | c :: cs =>
    match rowGet row c with
    | none => Except.error c
    | some v =>
      match get_row_key row cs with
      | Except.ok ks => Except.ok (pyStr v :: ks)
      | Except.error e => Except.error e

/-- Python comparison `key1 < key2` on tuples of strings: compare
component-wise, the first unequal pair decides, and a proper shorter tuple
is less than the longer one. -/
def keyLt (k1 k2 : List String) : Bool :=
  match k1, k2 with
  | [], [] => false
  | [], _ :: _ => true
  | _ :: _, [] => false
  | a :: as, b :: bs => if a = b then keyLt as bs else decide (a < b)

/-- The outcome of one comparison run: the emitted delete rows, the emitted
insert rows, and the final `delete_count` / `insert_count` counters. -/
structure DiffOut (α : Type) where
  deletes : List α
  inserts : List α
  deleteCount : Nat
  insertCount : Nat
deriving DecidableEq

/-- The three `while` loops of `compare_snapshots` (csv_compare_2.py lines
218-242) and of `compare_sorted_csv` (csv_compare.py lines 57-82),
abstracted over the key of a record: while both streams have a current
record, equal keys advance both streams emitting nothing, `key1 < key2`
emits the stream-1 record as a deletion, otherwise the stream-2 record is
emitted as an insertion; when one stream is exhausted the other is drained
entirely to the corresponding output. -/
def mergeD (k : α → List String) : List α → List α → DiffOut α
  | r1 :: rs1, r2 :: rs2 =>
    if k r1 = k r2 then
      mergeD k rs1 rs2
    else if keyLt (k r1) (k r2) then
      let p := mergeD k rs1 (r2 :: rs2)
      ⟨r1 :: p.deletes, p.inserts, p.deleteCount + 1, p.insertCount⟩
    else
      let p := mergeD k (r1 :: rs1) rs2
      ⟨p.deletes, r2 :: p.inserts, p.deleteCount, p.insertCount + 1⟩
  | rs1, [] => ⟨rs1, [], rs1.length, 0⟩
  | [], rs2 => ⟨[], rs2, 0, rs2.length⟩
termination_by l1 l2 => l1.length + l2.length
decreasing_by all_goals (simp [List.length_cons]; try omega)

/-- The same main loop, with the key extraction of `compare_snapshots`
inlined: keys are computed by `get_row_key` at the top of each iteration of
the first `while` loop and a `KeyError` propagates out of the loop; the two
drain loops never compute keys. -/
def mergeLoop (key_columns : List String) : List Row → List Row → Except String (DiffOut Row)
  | r1 :: rs1, r2 :: rs2 =>
    match get_row_key r1 key_columns with
    | Except.error e => Except.error e
    | Except.ok key1 =>
      match get_row_key r2 key_columns with
      | Except.error e => Except.error e
      | Except.ok key2 =>
        if key1 = key2 then
          mergeLoop key_columns rs1 rs2
        else if keyLt key1 key2 then
          match mergeLoop key_columns rs1 (r2 :: rs2) with
          | Except.error e => Except.error e
          | Except.ok p => Except.ok ⟨r1 :: p.deletes, p.inserts, p.deleteCount + 1, p.insertCount⟩
        else
          match mergeLoop key_columns (r1 :: rs1) rs2 with
          | Except.error e => Except.error e
          | Except.ok p => Except.ok ⟨p.deletes, r2 :: p.inserts, p.deleteCount, p.insertCount + 1⟩
  | rs1, [] => Except.ok ⟨rs1, [], rs1.length, 0⟩
  | [], rs2 => Except.ok ⟨[], rs2, 0, rs2.length⟩
termination_by l1 l2 => l1.length + l2.length
decreasing_by all_goals (simp [List.length_cons]; try omega)

/-- One data row as materialized by `csv.DictReader.__next__`: the raw
cells are zipped with the fieldnames; when the row is short, every leftover
fieldname is bound to `restval = None` (extra cells beyond the fieldnames
would only be stored under the non-string `restkey` and are never consulted
by a lookup on a column name, so they are dropped here). -/
def padRow (fieldnames : List String) (cells : List String) : Row :=
  match fieldnames, cells with
  | [], _ => []
  | f :: fs, [] => (f, none) :: padRow fs []
  | f :: fs, c :: cs => (f, some c) :: padRow fs cs

/-- The sequence of data rows a `csv.DictReader` yields for a raw CSV body:
blank rows are skipped, every other raw row is zipped with the fieldnames
(short rows padded with `None`). -/
def dictRows (fieldnames : List String) (rawRows : List (List String)) : List Row :=
  (rawRows.filter (fun r => !r.isEmpty)).map (padRow fieldnames)

/-- The exceptions `compare_snapshots` can raise, tagged with the data the
corresponding message interpolates. `headerUnreadable` and `missingColumns`
are the two `MissingColumnError` raises of `validate_csv_headers`;
`noFieldnames` is the `CsvProcessingError` for falsy output fieldnames;
`csvReadError` is the `CsvReadError` wrapping a `KeyError` (carrying the
offending column name) raised while scanning. -/
inductive CmpError : Type where
  | headerUnreadable : String → CmpError
  | missingColumns : String → List String → CmpError
  | noFieldnames : CmpError
  | csvReadError : String → CmpError
deriving DecidableEq

/-- `validate_csv_headers` (csv_compare_2.py lines 42-51): `fieldnames` is
`none` when the reader could not produce a header (empty file); otherwise
the key columns absent from the header are collected in order and their
non-emptiness is fatal. -/
def validate_csv_headers (fieldnames : Option (List String))
    (expected_columns : List String) (filename : String) : Except CmpError Unit :=
  match fieldnames with
  | none => Except.error (CmpError.headerUnreadable filename)
  | some fns =>
    let missing_cols := expected_columns.filter (fun c => !decide (c ∈ fns))
    if missing_cols.isEmpty then Except.ok ()
    else Except.error (CmpError.missingColumns filename missing_cols)

/-- What a successful `compare_snapshots` run leaves behind: the header of
each output file (inserts reuse snapshot2's fieldnames, deletes reuse
snapshot1's) and the emitted rows and counters. -/
structure SnapshotResult where
  insertHeader : List String
  deleteHeader : List String
  out : DiffOut Row
deriving DecidableEq

/-- `compare_snapshots` (csv_compare_2.py lines 134-258) on a pure CSV
model: each input file is its list of raw rows (the first raw row being the
header `csv.DictReader` consumes as fieldnames). Both headers are validated
before any data row is touched; then the falsy-fieldnames guard runs; then
the three comparison loops run over the `DictReader` rows, a `KeyError`
surfacing as `CsvReadError`. -/
def compare_snapshots (raw1 raw2 : List (List String))
    (snapshot1_path snapshot2_path : String)
    (key_columns : List String) : Except CmpError SnapshotResult :=
  match validate_csv_headers raw1.head? key_columns snapshot1_path with
  | Except.error e => Except.error e
  | Except.ok _ =>
    match validate_csv_headers raw2.head? key_columns snapshot2_path with
    | Except.error e => Except.error e
    | Except.ok _ =>
      match raw1.head?, raw2.head? with
      | some fns1, some fns2 =>
        if fns2.isEmpty || fns1.isEmpty then Except.error CmpError.noFieldnames
        else
          match mergeLoop key_columns (dictRows fns1 raw1.tail) (dictRows fns2 raw2.tail) with
          | Except.error col => Except.error (CmpError.csvReadError col)
          | Except.ok p => Except.ok ⟨fns2, fns1, p⟩
      | _, _ => Except.error CmpError.noFieldnames

/-! ### Unfolding equations and an induction principle for the merge -/

theorem mergeD_nil_right (k : α → List String) (l1 : List α) :
    mergeD k l1 [] = ⟨l1, [], l1.length, 0⟩ := by
  cases l1 <;> simp [mergeD]

theorem mergeD_nil_left (k : α → List String) (l2 : List α) :
    mergeD k [] l2 = ⟨[], l2, 0, l2.length⟩ := by
  cases l2 <;> simp [mergeD]

theorem mergeD_cons_cons (k : α → List String) (r1 r2 : α) (rs1 rs2 : List α) :
    mergeD k (r1 :: rs1) (r2 :: rs2) =
      if k r1 = k r2 then
        mergeD k rs1 rs2
      else if keyLt (k r1) (k r2) then
        let p := mergeD k rs1 (r2 :: rs2)
        ⟨r1 :: p.deletes, p.inserts, p.deleteCount + 1, p.insertCount⟩
      else
        let p := mergeD k (r1 :: rs1) rs2
        ⟨p.deletes, r2 :: p.inserts, p.deleteCount, p.insertCount + 1⟩ := by
  simp [mergeD]

/-- Induction principle following the recursion pattern of the merge loop:
both lists shrink in the equal-keys case, and exactly one list shrinks in
each emitting case. -/
theorem mergeRec {α : Type} {motive : List α → List α → Prop}
    (base2 : ∀ l1, motive l1 [])
    (base1 : ∀ r2 rs2, motive [] (r2 :: rs2))
    (step : ∀ r1 rs1 r2 rs2, motive rs1 rs2 → motive rs1 (r2 :: rs2) →
      motive (r1 :: rs1) rs2 → motive (r1 :: rs1) (r2 :: rs2)) :
    ∀ l1 l2, motive l1 l2 := by
  have key : ∀ n l1 l2, l1.length + l2.length ≤ n → motive l1 l2 := by
    intro n
    induction n with
    | zero =>
      intro l1 l2 h
      match l1, l2 with
      | l1, [] => exact base2 l1
      | [], r2 :: rs2 => exact base1 r2 rs2
      | r1 :: rs1, r2 :: rs2 => simp at h
    | succ n ih =>
      intro l1 l2 h
      match l1, l2 with
      | l1, [] => exact base2 l1
      | [], r2 :: rs2 => exact base1 r2 rs2
      | r1 :: rs1, r2 :: rs2 =>
        refine step r1 rs1 r2 rs2 (ih rs1 rs2 ?_) (ih rs1 (r2 :: rs2) ?_)
          (ih (r1 :: rs1) rs2 ?_) <;> (simp at h ⊢; omega)
  intro l1 l2
  exact key (l1.length + l2.length) l1 l2 (le_refl _)

/-! ### `keyLt` is a strict linear order -/

theorem keyLt_irrefl (k : List String) : keyLt k k = false := by
  induction k with
  | nil => rfl
  | cons a as ih => simp [keyLt, ih]

theorem keyLt_asymm {k1 k2 : List String} (h : keyLt k1 k2 = true) :
    keyLt k2 k1 = false := by
  induction k1 generalizing k2 with
  | nil =>
    cases k2 with
    | nil => simp [keyLt] at h
    | cons b bs => simp [keyLt]
  | cons a as ih =>
    cases k2 with
    | nil => simp [keyLt] at h
    | cons b bs =>
      by_cases hab : a = b
      · subst hab
        simp only [keyLt, if_pos rfl] at h ⊢
        exact ih h
      · simp only [keyLt, if_neg hab, decide_eq_true_eq] at h
        have hba : ¬ b = a := fun e => hab e.symm
        simp only [keyLt, if_neg hba, decide_eq_false_iff_not]
        exact lt_asymm h

theorem keyLt_conn {k1 k2 : List String} (h1 : keyLt k1 k2 = false)
    (h2 : keyLt k2 k1 = false) : k1 = k2 := by
  induction k1 generalizing k2 with
  | nil =>
    cases k2 with
    | nil => rfl
    | cons b bs => simp [keyLt] at h1
  | cons a as ih =>
    cases k2 with
    | nil => simp [keyLt] at h2
    | cons b bs =>
      by_cases hab : a = b
      · subst hab
        simp only [keyLt, if_pos rfl] at h1 h2
        rw [ih h1 h2]
      · have hba : ¬ b = a := fun e => hab e.symm
        simp only [keyLt, if_neg hab, if_neg hba, decide_eq_false_iff_not] at h1 h2
        exact absurd (le_antisymm (not_lt.mp h2) (not_lt.mp h1)) hab

theorem keyLt_trans {k1 k2 k3 : List String} (h1 : keyLt k1 k2 = true)
    (h2 : keyLt k2 k3 = true) : keyLt k1 k3 = true := by
  induction k1 generalizing k2 k3 with
  | nil =>
    cases k2 with
    | nil => simp [keyLt] at h1
    | cons b bs =>
      cases k3 with
      | nil => simp [keyLt] at h2
      | cons c cs => simp [keyLt]
  | cons a as ih =>
    cases k2 with
    | nil => simp [keyLt] at h1
    | cons b bs =>
      cases k3 with
      | nil => simp [keyLt] at h2
      | cons c cs =>
        by_cases hab : a = b <;> by_cases hbc : b = c
        · subst hab; subst hbc
          simp only [keyLt, if_pos rfl] at h1 h2 ⊢
          exact ih h1 h2
        · subst hab
          simp only [keyLt, if_pos rfl, if_neg hbc] at h2 ⊢
          exact h2
        · subst hbc
          simp only [keyLt, if_neg hab] at h1 ⊢
          exact h1
        · simp only [keyLt, if_neg hab, decide_eq_true_eq] at h1
          simp only [keyLt, if_neg hbc, decide_eq_true_eq] at h2
          have hac : a < c := lt_trans h1 h2
          simp [keyLt, ne_of_lt hac, hac]

theorem keyLt_of_ne_of_not_lt {k1 k2 : List String} (hne : ¬ k1 = k2)
    (h : keyLt k1 k2 = false) : keyLt k2 k1 = true := by
  cases hlt : keyLt k2 k1 with
  | true => rfl
  | false => exact absurd (keyLt_conn h hlt) hne

/-! ### Sortedness by key -/

/-- The caller-enforced precondition of the spec, for one stream: the
records are non-decreasing by key under the lexicographic tuple order
(equivalently, no later record's key is `keyLt` an earlier one's). -/
def SortedByKey (k : α → List String) (l : List α) : Prop :=
  List.Pairwise (fun r s => keyLt (k s) (k r) = false) l

instance (k : α → List String) (l : List α) : Decidable (SortedByKey k l) :=
  List.instDecidablePairwise l

theorem SortedByKey.tail {k : α → List String} {r : α} {l : List α}
    (h : SortedByKey k (r :: l)) : SortedByKey k l :=
  (List.pairwise_cons.mp h).2

/-- In a sorted stream, a key strictly below the head key occurs nowhere. -/
theorem not_mem_of_keyLt_head {k : α → List String} {s : α} {l : List α}
    (hs : SortedByKey k (s :: l)) {κ : List String}
    (hκ : keyLt κ (k s) = true) : ∀ r ∈ s :: l, ¬ k r = κ := by
  intro r hr he
  rcases List.mem_cons.mp hr with h | h
  · subst h
    rw [he] at hκ
    rw [keyLt_irrefl] at hκ
    exact Bool.false_ne_true hκ
  · have hle : keyLt (k r) (k s) = false := (List.pairwise_cons.mp hs).1 r h
    rw [he] at hle
    rw [hκ] at hle
    simp at hle

/-! ### Structural facts about the merge -/

theorem mergeD_self (k : α → List String) (l : List α) :
    mergeD k l l = ⟨[], [], 0, 0⟩ := by
  induction l with
  | nil => rw [mergeD_nil_left]; rfl
  | cons r rs ih => rw [mergeD_cons_cons, if_pos rfl, ih]

theorem mergeD_sublists (k : α → List String) (l1 l2 : List α) :
    (mergeD k l1 l2).deletes.Sublist l1 ∧ (mergeD k l1 l2).inserts.Sublist l2 := by
  induction l1, l2 using mergeRec with
  | base2 l1 => rw [mergeD_nil_right]; exact ⟨List.Sublist.refl l1, List.nil_sublist []⟩
  | base1 r2 rs2 =>
    rw [mergeD_nil_left]
    exact ⟨List.nil_sublist [], List.Sublist.refl _⟩
  | step r1 rs1 r2 rs2 ih1 ih2 ih3 =>
    rw [mergeD_cons_cons]
    by_cases h : k r1 = k r2
    · rw [if_pos h]
      exact ⟨ih1.1.cons r1, ih1.2.cons r2⟩
    · rw [if_neg h]
      by_cases hlt : keyLt (k r1) (k r2) = true
      · rw [if_pos hlt]
        exact ⟨ih2.1.cons₂ r1, ih2.2⟩
      · rw [if_neg hlt]
        exact ⟨ih3.1, ih3.2.cons₂ r2⟩

theorem mergeD_counts (k : α → List String) (l1 l2 : List α) :
    (mergeD k l1 l2).deleteCount = (mergeD k l1 l2).deletes.length ∧
    (mergeD k l1 l2).insertCount = (mergeD k l1 l2).inserts.length := by
  induction l1, l2 using mergeRec with
  | base2 l1 => rw [mergeD_nil_right]; exact ⟨rfl, rfl⟩
  | base1 r2 rs2 => rw [mergeD_nil_left]; exact ⟨rfl, rfl⟩
  | step r1 rs1 r2 rs2 ih1 ih2 ih3 =>
    rw [mergeD_cons_cons]
    by_cases h : k r1 = k r2
    · rw [if_pos h]; exact ih1
    · rw [if_neg h]
      by_cases hlt : keyLt (k r1) (k r2) = true
      · rw [if_pos hlt]
        exact ⟨by simp [ih2.1], ih2.2⟩
      · rw [if_neg hlt]
        exact ⟨ih3.1, by simp [ih3.2]⟩

theorem mergeD_swap (k : α → List String) (l1 l2 : List α) :
    mergeD k l2 l1 = ⟨(mergeD k l1 l2).inserts, (mergeD k l1 l2).deletes,
      (mergeD k l1 l2).insertCount, (mergeD k l1 l2).deleteCount⟩ := by
  induction l1, l2 using mergeRec with
  | base2 l1 => rw [mergeD_nil_right, mergeD_nil_left]
  | base1 r2 rs2 => rw [mergeD_nil_right, mergeD_nil_left]
  | step r1 rs1 r2 rs2 ih1 ih2 ih3 =>
    by_cases h : k r1 = k r2
    · rw [mergeD_cons_cons, mergeD_cons_cons, if_pos h, if_pos h.symm, ih1]
    · have h2 : ¬ k r2 = k r1 := fun e => h e.symm
      by_cases hlt : keyLt (k r1) (k r2) = true
      · have hlt2 : keyLt (k r2) (k r1) = false := keyLt_asymm hlt
        rw [mergeD_cons_cons, mergeD_cons_cons, if_neg h, if_neg h2, if_pos hlt,
          if_neg (by rw [hlt2]; exact Bool.false_ne_true), ih2]
      · have hlt2 : keyLt (k r2) (k r1) = true := keyLt_of_ne_of_not_lt h (by
          cases hx : keyLt (k r1) (k r2) with
          | true => exact absurd hx hlt
          | false => rfl)
        rw [mergeD_cons_cons, mergeD_cons_cons, if_neg h, if_neg h2, if_pos hlt2,
          if_neg hlt, ih3]

/-- The delete output's multiplicity is unchanged for any property of
records that guarantees the key does not occur in stream 2. -/
theorem mergeD_deletes_countP_of_notmem (k : α → List String) (P : α → Bool) :
    ∀ l1 l2 : List α, (∀ r, P r = true → ¬ k r ∈ l2.map k) →
      (mergeD k l1 l2).deletes.countP P = l1.countP P := by
  intro l1 l2
  induction l1, l2 using mergeRec with
  | base2 l1 => intro _; rw [mergeD_nil_right]
  | base1 r2 rs2 => intro _; rw [mergeD_nil_left]
  | step r1 rs1 r2 rs2 ih1 ih2 ih3 =>
    intro hP
    have hP' : ∀ r, P r = true → ¬ k r ∈ rs2.map k := fun r hr hmem =>
      hP r hr (by simp only [List.map_cons, List.mem_cons]; exact Or.inr hmem)
    rw [mergeD_cons_cons]
    by_cases h : k r1 = k r2
    · rw [if_pos h]
      have hP1 : P r1 = false := by
        cases hp : P r1 with
        | false => rfl
        | true => exact absurd (by rw [h]; simp) (hP r1 hp)
      rw [ih1 hP', List.countP_cons, hP1]
      simp
    · rw [if_neg h]
      by_cases hlt : keyLt (k r1) (k r2) = true
      · rw [if_pos hlt]
        show (r1 :: (mergeD k rs1 (r2 :: rs2)).deletes).countP P = _
        rw [List.countP_cons, List.countP_cons, ih2 hP]
      · rw [if_neg hlt]
        exact ih3 hP'

theorem countP_key_eq_zero {k : α → List String} {l : List α} {κ : List String}
    (h : ∀ r ∈ l, ¬ k r = κ) :
    l.countP (fun r => decide (k r = κ)) = 0 :=
  List.countP_eq_zero.mpr (by intro a ha; simpa using h a ha)

/-- On sorted streams the delete output carries each key with multiplicity
`(count in stream 1) - (count in stream 2)`, truncated at zero. -/
theorem mergeD_deletes_key_count (k : α → List String) (κ : List String) :
    ∀ l1 l2 : List α, SortedByKey k l1 → SortedByKey k l2 →
      (mergeD k l1 l2).deletes.countP (fun r => decide (k r = κ)) =
        l1.countP (fun r => decide (k r = κ)) -
          l2.countP (fun r => decide (k r = κ)) := by
  intro l1 l2
  induction l1, l2 using mergeRec with
  | base2 l1 => intro _ _; rw [mergeD_nil_right]; rfl
  | base1 r2 rs2 => intro _ _; rw [mergeD_nil_left]; simp
  | step r1 rs1 r2 rs2 ih1 ih2 ih3 =>
    intro hs1 hs2
    rw [mergeD_cons_cons]
    by_cases h : k r1 = k r2
    · rw [if_pos h, ih1 hs1.tail hs2.tail, List.countP_cons, List.countP_cons]
      by_cases hκ : k r1 = κ
      · rw [if_pos (by simpa using hκ), if_pos (by simp [← h, hκ])]
        omega
      · rw [if_neg (by simpa using hκ), if_neg (by simp [← h]; exact hκ)]
        omega
    · rw [if_neg h]
      by_cases hlt : keyLt (k r1) (k r2) = true
      · rw [if_pos hlt]
        show ((r1 :: (mergeD k rs1 (r2 :: rs2)).deletes).countP _) = _
        rw [List.countP_cons, List.countP_cons, ih2 hs1.tail hs2]
        by_cases hκ : k r1 = κ
        · have hz : (r2 :: rs2).countP (fun r => decide (k r = κ)) = 0 :=
            countP_key_eq_zero (not_mem_of_keyLt_head hs2 (by rw [← hκ]; exact hlt))
          rw [hz, if_pos (by simpa using hκ)]
          omega
        · rw [if_neg (by simpa using hκ)]
          omega
      · have hlt2 : keyLt (k r2) (k r1) = true := keyLt_of_ne_of_not_lt h (by
          cases hx : keyLt (k r1) (k r2) with
          | true => exact absurd hx hlt
          | false => rfl)
        rw [if_neg hlt]
        show ((mergeD k (r1 :: rs1) rs2).deletes.countP _) = _
        rw [ih3 hs1 hs2.tail]
        by_cases hκ : k r2 = κ
        · have hz : (r1 :: rs1).countP (fun r => decide (k r = κ)) = 0 :=
            countP_key_eq_zero (not_mem_of_keyLt_head hs1 (by rw [← hκ]; exact hlt2))
          rw [hz]
          omega
        · have hc2 : (r2 :: rs2).countP (fun r => decide (k r = κ)) =
              rs2.countP (fun r => decide (k r = κ)) := by
            rw [List.countP_cons, if_neg (by simpa using hκ)]
            rfl
          rw [hc2]


/-! ### Relating the exception-raising loop to the total merge -/

/-- The key of a row, defaulting to `[]` when a component is missing; it
agrees with `get_row_key` on every row whose key extracts. -/
def rowKeyD (key_columns : List String) (r : Row) : List String :=
  match get_row_key r key_columns with
  | Except.ok ks => ks
  | Except.error _ => []

/-- Every row of the stream admits a key, i.e. no `KeyError` can be raised
while scanning it. -/
def KeysOk (key_columns : List String) (l : List Row) : Prop :=
  ∀ r ∈ l, ∃ ks, get_row_key r key_columns = Except.ok ks

theorem mergeLoop_nil_right (kc : List String) (l1 : List Row) :
    mergeLoop kc l1 [] = Except.ok ⟨l1, [], l1.length, 0⟩ := by
  cases l1 <;> simp [mergeLoop]

theorem mergeLoop_nil_left (kc : List String) (l2 : List Row) :
    mergeLoop kc [] l2 = Except.ok ⟨[], l2, 0, l2.length⟩ := by
  cases l2 <;> simp [mergeLoop]

theorem mergeLoop_cons_of_ok (kc : List String) (r1 r2 : Row) (rs1 rs2 : List Row)
    (k1 k2 : List String)
    (h1 : get_row_key r1 kc = Except.ok k1) (h2 : get_row_key r2 kc = Except.ok k2) :
    mergeLoop kc (r1 :: rs1) (r2 :: rs2) =
      if k1 = k2 then
        mergeLoop kc rs1 rs2
      else if keyLt k1 k2 then
        match mergeLoop kc rs1 (r2 :: rs2) with
        | Except.error e => Except.error e
        | Except.ok p => Except.ok ⟨r1 :: p.deletes, p.inserts, p.deleteCount + 1, p.insertCount⟩
      else
        match mergeLoop kc (r1 :: rs1) rs2 with
        | Except.error e => Except.error e
        | Except.ok p => Except.ok ⟨p.deletes, r2 :: p.inserts, p.deleteCount, p.insertCount + 1⟩ := by
  simp only [mergeLoop, h1, h2]

theorem mergeLoop_eq_mergeD (kc : List String) :
    ∀ l1 l2 : List Row, KeysOk kc l1 → KeysOk kc l2 →
      mergeLoop kc l1 l2 = Except.ok (mergeD (rowKeyD kc) l1 l2) := by
  intro l1 l2
  induction l1, l2 using mergeRec with
  | base2 l1 => intro _ _; rw [mergeLoop_nil_right, mergeD_nil_right]
  | base1 r2 rs2 => intro _ _; rw [mergeLoop_nil_left, mergeD_nil_left]
  | step r1 rs1 r2 rs2 ih1 ih2 ih3 =>
    intro hk1 hk2
    obtain ⟨k1, h1⟩ := hk1 r1 (List.mem_cons_self r1 rs1)
    obtain ⟨k2, h2⟩ := hk2 r2 (List.mem_cons_self r2 rs2)
    have hr1 : rowKeyD kc r1 = k1 := by simp [rowKeyD, h1]
    have hr2 : rowKeyD kc r2 = k2 := by simp [rowKeyD, h2]
    have hk1' : KeysOk kc rs1 := fun r hr => hk1 r (List.mem_cons_of_mem _ hr)
    have hk2' : KeysOk kc rs2 := fun r hr => hk2 r (List.mem_cons_of_mem _ hr)
    rw [mergeLoop_cons_of_ok kc r1 r2 rs1 rs2 k1 k2 h1 h2, mergeD_cons_cons, hr1, hr2]
    by_cases h : k1 = k2
    · rw [if_pos h, if_pos h]
      exact ih1 hk1' hk2'
    · rw [if_neg h, if_neg h]
      by_cases hlt : keyLt k1 k2 = true
      · rw [if_pos hlt, if_pos hlt, ih2 hk1' hk2]
      · rw [if_neg hlt, if_neg hlt, ih3 hk1 hk2']

/-! ### DictReader rows always carry every fieldname -/

theorem rowGet_padRow : ∀ (fieldnames cells : List String) {c : String}, c ∈ fieldnames →
    ∃ v, rowGet (padRow fieldnames cells) c = some v := by
  intro fns
  induction fns with
  | nil => intro cells c hc; exact absurd hc (List.not_mem_nil c)
  | cons f fs ih =>
    intro cells c hc
    by_cases he : c = f
    · cases cells with
      | nil => exact ⟨none, by simp [padRow, rowGet, he]⟩
      | cons cl cls => exact ⟨some cl, by simp [padRow, rowGet, he]⟩
    · have hc' : c ∈ fs := by
        rcases List.mem_cons.mp hc with h | h
        · exact absurd h he
        · exact h
      cases cells with
      | nil =>
        obtain ⟨v, hv⟩ := ih [] hc'
        exact ⟨v, by simp [padRow, rowGet, he, hv]⟩
      | cons cl cls =>
        obtain ⟨v, hv⟩ := ih cls hc'
        exact ⟨v, by simp [padRow, rowGet, he, hv]⟩

theorem get_row_key_padRow (fieldnames cells key_columns : List String)
    (h : ∀ c ∈ key_columns, c ∈ fieldnames) :
    ∃ ks, get_row_key (padRow fieldnames cells) key_columns = Except.ok ks := by
  induction key_columns with
  | nil => exact ⟨[], rfl⟩
  | cons c cs ih =>
    obtain ⟨v, hv⟩ := rowGet_padRow fieldnames cells (h c (List.mem_cons_self c cs))
    obtain ⟨ks, hks⟩ := ih (fun x hx => h x (List.mem_cons_of_mem _ hx))
    exact ⟨pyStr v :: ks, by simp [get_row_key, hv, hks]⟩

theorem keysOk_dictRows (fieldnames key_columns : List String)
    (raws : List (List String)) (h : ∀ c ∈ key_columns, c ∈ fieldnames) :
    KeysOk key_columns (dictRows fieldnames raws) := by
  intro r hr
  rw [dictRows] at hr
  obtain ⟨cells, _, rfl⟩ := List.mem_map.mp hr
  exact get_row_key_padRow fieldnames cells key_columns h

/-! ### Running `compare_snapshots` with valid headers -/

theorem validate_ok_of_subset {fns kc : List String} {p : String}
    (h : ∀ c ∈ kc, c ∈ fns) :
    validate_csv_headers (some fns) kc p = Except.ok () := by
  have hnil : kc.filter (fun c => !decide (c ∈ fns)) = [] := by
    rw [List.filter_eq_nil_iff]
    intro a ha
    simp [h a ha]
  simp [validate_csv_headers, hnil]

theorem compare_snapshots_run (raw1 raw2 : List (List String)) (p1 p2 : String)
    (kc fns1 fns2 : List String)
    (h1 : raw1.head? = some fns1) (h2 : raw2.head? = some fns2)
    (hk1 : ∀ c ∈ kc, c ∈ fns1) (hk2 : ∀ c ∈ kc, c ∈ fns2)
    (hne1 : fns1 ≠ []) (hne2 : fns2 ≠ []) :
    compare_snapshots raw1 raw2 p1 p2 kc =
      Except.ok ⟨fns2, fns1,
        mergeD (rowKeyD kc) (dictRows fns1 raw1.tail) (dictRows fns2 raw2.tail)⟩ := by
  have e1 : fns1.isEmpty = false := by
    cases fns1 with
    | nil => exact absurd rfl hne1
    | cons a l => rfl
  have e2 : fns2.isEmpty = false := by
    cases fns2 with
    | nil => exact absurd rfl hne2
    | cons a l => rfl
  simp only [compare_snapshots, h1, h2, validate_ok_of_subset hk1, validate_ok_of_subset hk2,
    e1, e2, Bool.or_self, Bool.false_eq_true, if_false,
    mergeLoop_eq_mergeD kc _ _ (keysOk_dictRows fns1 kc raw1.tail hk1)
      (keysOk_dictRows fns2 kc raw2.tail hk2)]

/-- Records of stream 1 whose key is absent from stream 2 survive into the
delete output as an intact subsequence. -/
theorem mergeD_filter_deletes (k : α → List String) (l1 l2 : List α) :
    (l1.filter (fun r => !decide (k r ∈ l2.map k))).Sublist (mergeD k l1 l2).deletes := by
  have hnm : ∀ r, (fun r => !decide (k r ∈ l2.map k)) r = true → ¬ k r ∈ l2.map k := by
    intro r hr
    simpa using hr
  have hcnt := mergeD_deletes_countP_of_notmem k (fun r => !decide (k r ∈ l2.map k)) l1 l2 hnm
  have hsub := (mergeD_sublists k l1 l2).1
  have hfil := hsub.filter (fun r => !decide (k r ∈ l2.map k))
  have hlen : ((mergeD k l1 l2).deletes.filter (fun r => !decide (k r ∈ l2.map k))).length
      = (l1.filter (fun r => !decide (k r ∈ l2.map k))).length := by
    rw [← List.countP_eq_length_filter, ← List.countP_eq_length_filter, hcnt]
  have heq := hfil.eq_of_length hlen
  rw [← heq]
  exact List.filter_sublist _

theorem mergeD_filter_inserts (k : α → List String) (l1 l2 : List α) :
    (l2.filter (fun r => !decide (k r ∈ l1.map k))).Sublist (mergeD k l1 l2).inserts := by
  have h := mergeD_filter_deletes k l2 l1
  rw [mergeD_swap k l1 l2] at h
  exact h

theorem validate_error_of_missing {fns kc : List String} {p : String}
    (h : kc.filter (fun c => !decide (c ∈ fns)) ≠ []) :
    validate_csv_headers (some fns) kc p =
      Except.error (CmpError.missingColumns p (kc.filter (fun c => !decide (c ∈ fns)))) := by
  have hne : (kc.filter (fun c => !decide (c ∈ fns))).isEmpty = false := by
    cases hx : kc.filter (fun c => !decide (c ∈ fns)) with
    | nil => exact absurd hx h
    | cons a l => rfl
  simp [validate_csv_headers, hne]

/-! ### Claims -/

/-- C1: at each step of the main loop where both streams have a current
record, equal keys advance both streams and emit nothing (differences in
non-key column values are ignored, the records being arbitrary); if key 1
is lexicographically less, the stream-1 record is emitted to the delete
output and only stream 1 advances; if key 1 is greater, the stream-2
record is emitted to the insert output and only stream 2 advances. -/
theorem mergeLoop_step (kc : List String) (r1 r2 : Row) (rs1 rs2 : List Row)
    (k1 k2 : List String)
    (h1 : get_row_key r1 kc = Except.ok k1) (h2 : get_row_key r2 kc = Except.ok k2) :
    (k1 = k2 → mergeLoop kc (r1 :: rs1) (r2 :: rs2) = mergeLoop kc rs1 rs2) ∧
    (keyLt k1 k2 = true →
      mergeLoop kc (r1 :: rs1) (r2 :: rs2) =
        (mergeLoop kc rs1 (r2 :: rs2)).map
          (fun p => ⟨r1 :: p.deletes, p.inserts, p.deleteCount + 1, p.insertCount⟩)) ∧
    (keyLt k2 k1 = true →
      mergeLoop kc (r1 :: rs1) (r2 :: rs2) =
        (mergeLoop kc (r1 :: rs1) rs2).map
          (fun p => ⟨p.deletes, r2 :: p.inserts, p.deleteCount, p.insertCount + 1⟩)) := by
  refine ⟨?_, ?_, ?_⟩
  · intro h
    rw [mergeLoop_cons_of_ok kc r1 r2 rs1 rs2 k1 k2 h1 h2, if_pos h]
  · intro hlt
    have hne : ¬ k1 = k2 := by
      intro he
      rw [he, keyLt_irrefl] at hlt
      exact Bool.false_ne_true hlt
    rw [mergeLoop_cons_of_ok kc r1 r2 rs1 rs2 k1 k2 h1 h2, if_neg hne, if_pos hlt]
    cases mergeLoop kc rs1 (r2 :: rs2) <;> rfl
  · intro hgt
    have hne : ¬ k1 = k2 := by
      intro he
      rw [he, keyLt_irrefl] at hgt
      exact Bool.false_ne_true hgt
    have hflt : keyLt k1 k2 = false := keyLt_asymm hgt
    rw [mergeLoop_cons_of_ok kc r1 r2 rs1 rs2 k1 k2 h1 h2, if_neg hne,
      if_neg (by rw [hflt]; exact Bool.false_ne_true)]
    cases mergeLoop kc (r1 :: rs1) rs2 <;> rfl

/-- Witness for C1: concrete rows with keys ("/a","x") and ("/b","y"). -/
theorem mergeLoop_step_witness :
    get_row_key [("Path", some "/a"), ("Name", some "x")] ["Path", "Name"] =
        Except.ok ["/a", "x"] ∧
    get_row_key [("Path", some "/b"), ("Name", some "y")] ["Path", "Name"] =
        Except.ok ["/b", "y"] ∧
    ((["/a", "x"] : List String) = ["/b", "y"] →
      mergeLoop ["Path", "Name"] [[("Path", some "/a"), ("Name", some "x")]]
          [[("Path", some "/b"), ("Name", some "y")]] = mergeLoop ["Path", "Name"] [] []) ∧
    (keyLt ["/a", "x"] ["/b", "y"] = true →
      mergeLoop ["Path", "Name"] [[("Path", some "/a"), ("Name", some "x")]]
          [[("Path", some "/b"), ("Name", some "y")]] =
        (mergeLoop ["Path", "Name"] [] [[("Path", some "/b"), ("Name", some "y")]]).map
          (fun p => ⟨[("Path", some "/a"), ("Name", some "x")] :: p.deletes, p.inserts,
            p.deleteCount + 1, p.insertCount⟩)) ∧
    (keyLt ["/b", "y"] ["/a", "x"] = true →
      mergeLoop ["Path", "Name"] [[("Path", some "/a"), ("Name", some "x")]]
          [[("Path", some "/b"), ("Name", some "y")]] =
        (mergeLoop ["Path", "Name"] [[("Path", some "/a"), ("Name", some "x")]] []).map
          (fun p => ⟨p.deletes, [("Path", some "/b"), ("Name", some "y")] :: p.inserts,
            p.deleteCount, p.insertCount + 1⟩)) := by
  have h := mergeLoop_step ["Path", "Name"]
    [("Path", some "/a"), ("Name", some "x")] [("Path", some "/b"), ("Name", some "y")]
    [] [] ["/a", "x"] ["/b", "y"] rfl rfl
  exact ⟨rfl, rfl, h.1, h.2.1, h.2.2⟩

/-- C2: on sorted inputs, the stream-1 records whose key does not occur in
stream 2 all appear in the delete output, in their original relative order
(their filtered subsequence survives intact), while the delete output is
itself a subsequence of stream 1 (so each such record appears exactly
once); symmetrically for stream 2 and the insert output; and once one
stream is exhausted every remaining record of the other stream is emitted
(remaining stream-1 records as deletions, stream-2 records as
insertions). -/
theorem mergeLoop_coverage (kc : List String) (l1 l2 : List Row)
    (hk1 : KeysOk kc l1) (hk2 : KeysOk kc l2)
    (hs1 : SortedByKey (rowKeyD kc) l1) (hs2 : SortedByKey (rowKeyD kc) l2) :
    ∃ p, mergeLoop kc l1 l2 = Except.ok p ∧
      (l1.filter (fun r => !decide (rowKeyD kc r ∈ l2.map (rowKeyD kc)))).Sublist p.deletes ∧
      p.deletes.Sublist l1 ∧
      (l2.filter (fun r => !decide (rowKeyD kc r ∈ l1.map (rowKeyD kc)))).Sublist p.inserts ∧
      p.inserts.Sublist l2 ∧
      mergeLoop kc l1 [] = Except.ok ⟨l1, [], l1.length, 0⟩ ∧
      mergeLoop kc [] l2 = Except.ok ⟨[], l2, 0, l2.length⟩ :=
  ⟨mergeD (rowKeyD kc) l1 l2, mergeLoop_eq_mergeD kc l1 l2 hk1 hk2,
    mergeD_filter_deletes (rowKeyD kc) l1 l2, (mergeD_sublists (rowKeyD kc) l1 l2).1,
    mergeD_filter_inserts (rowKeyD kc) l1 l2, (mergeD_sublists (rowKeyD kc) l1 l2).2,
    mergeLoop_nil_right kc l1, mergeLoop_nil_left kc l2⟩

/-- Witness for C2: singleton streams with distinct keys. -/
theorem mergeLoop_coverage_witness :
    KeysOk ["Path", "Name"] [[("Path", some "/a"), ("Name", some "x")]] ∧
    KeysOk ["Path", "Name"] [[("Path", some "/b"), ("Name", some "y")]] ∧
    SortedByKey (rowKeyD ["Path", "Name"]) [[("Path", some "/a"), ("Name", some "x")]] ∧
    SortedByKey (rowKeyD ["Path", "Name"]) [[("Path", some "/b"), ("Name", some "y")]] ∧
    (∃ p, mergeLoop ["Path", "Name"] [[("Path", some "/a"), ("Name", some "x")]]
        [[("Path", some "/b"), ("Name", some "y")]] = Except.ok p ∧
      ([[("Path", some "/a"), ("Name", some "x")]].filter (fun r =>
        !decide (rowKeyD ["Path", "Name"] r ∈
          [[("Path", some "/b"), ("Name", some "y")]].map
            (rowKeyD ["Path", "Name"])))).Sublist p.deletes ∧
      p.deletes.Sublist [[("Path", some "/a"), ("Name", some "x")]] ∧
      ([[("Path", some "/b"), ("Name", some "y")]].filter (fun r =>
        !decide (rowKeyD ["Path", "Name"] r ∈
          [[("Path", some "/a"), ("Name", some "x")]].map
            (rowKeyD ["Path", "Name"])))).Sublist p.inserts ∧
      p.inserts.Sublist [[("Path", some "/b"), ("Name", some "y")]] ∧
      mergeLoop ["Path", "Name"] [[("Path", some "/a"), ("Name", some "x")]] [] =
        Except.ok ⟨[[("Path", some "/a"), ("Name", some "x")]], [], 1, 0⟩ ∧
      mergeLoop ["Path", "Name"] [] [[("Path", some "/b"), ("Name", some "y")]] =
        Except.ok ⟨[], [[("Path", some "/b"), ("Name", some "y")]], 0, 1⟩) := by
  have hk1 : KeysOk ["Path", "Name"] [[("Path", some "/a"), ("Name", some "x")]] := by
    intro r hr
    rw [List.mem_singleton] at hr
    subst hr
    exact ⟨["/a", "x"], rfl⟩
  have hk2 : KeysOk ["Path", "Name"] [[("Path", some "/b"), ("Name", some "y")]] := by
    intro r hr
    rw [List.mem_singleton] at hr
    subst hr
    exact ⟨["/b", "y"], rfl⟩
  have hs1 : SortedByKey (rowKeyD ["Path", "Name"])
      [[("Path", some "/a"), ("Name", some "x")]] := List.pairwise_singleton _ _
  have hs2 : SortedByKey (rowKeyD ["Path", "Name"])
      [[("Path", some "/b"), ("Name", some "y")]] := List.pairwise_singleton _ _
  exact ⟨hk1, hk2, hs1, hs2,
    mergeLoop_coverage ["Path", "Name"] _ _ hk1 hk2 hs1 hs2⟩

/-- C3: on sorted inputs no key value appears in both the insert output and
the delete output of the same run. -/
theorem mergeLoop_disjoint_keys (kc : List String) (l1 l2 : List Row)
    (hk1 : KeysOk kc l1) (hk2 : KeysOk kc l2)
    (hs1 : SortedByKey (rowKeyD kc) l1) (hs2 : SortedByKey (rowKeyD kc) l2) :
    ∃ p, mergeLoop kc l1 l2 = Except.ok p ∧
      ∀ κ, κ ∈ p.deletes.map (rowKeyD kc) → κ ∈ p.inserts.map (rowKeyD kc) → False := by
  refine ⟨mergeD (rowKeyD kc) l1 l2, mergeLoop_eq_mergeD kc l1 l2 hk1 hk2, ?_⟩
  intro κ hd hi
  have hdc := mergeD_deletes_key_count (rowKeyD kc) κ l1 l2 hs1 hs2
  have hic : (mergeD (rowKeyD kc) l1 l2).inserts.countP
        (fun r => decide (rowKeyD kc r = κ)) =
      l2.countP (fun r => decide (rowKeyD kc r = κ)) -
        l1.countP (fun r => decide (rowKeyD kc r = κ)) := by
    have h := mergeD_deletes_key_count (rowKeyD kc) κ l2 l1 hs2 hs1
    rw [mergeD_swap (rowKeyD kc) l1 l2] at h
    exact h
  obtain ⟨r, hr, hκr⟩ := List.mem_map.mp hd
  obtain ⟨s, hs, hκs⟩ := List.mem_map.mp hi
  have hdp : 0 < (mergeD (rowKeyD kc) l1 l2).deletes.countP
      (fun r => decide (rowKeyD kc r = κ)) :=
    List.countP_pos_iff.mpr ⟨r, hr, by simp [hκr]⟩
  have hip : 0 < (mergeD (rowKeyD kc) l1 l2).inserts.countP
      (fun r => decide (rowKeyD kc r = κ)) :=
    List.countP_pos_iff.mpr ⟨s, hs, by simp [hκs]⟩
  omega

/-- Witness for C3: singleton streams with distinct keys. -/
theorem mergeLoop_disjoint_keys_witness :
    KeysOk ["Path", "Name"] [[("Path", some "/a"), ("Name", some "x")]] ∧
    KeysOk ["Path", "Name"] [[("Path", some "/c"), ("Name", some "z")]] ∧
    SortedByKey (rowKeyD ["Path", "Name"]) [[("Path", some "/a"), ("Name", some "x")]] ∧
    SortedByKey (rowKeyD ["Path", "Name"]) [[("Path", some "/c"), ("Name", some "z")]] ∧
    (∃ p, mergeLoop ["Path", "Name"] [[("Path", some "/a"), ("Name", some "x")]]
        [[("Path", some "/c"), ("Name", some "z")]] = Except.ok p ∧
      ∀ κ, κ ∈ p.deletes.map (rowKeyD ["Path", "Name"]) →
        κ ∈ p.inserts.map (rowKeyD ["Path", "Name"]) → False) := by
  have hk1 : KeysOk ["Path", "Name"] [[("Path", some "/a"), ("Name", some "x")]] := by
    intro r hr
    rw [List.mem_singleton] at hr
    subst hr
    exact ⟨["/a", "x"], rfl⟩
  have hk2 : KeysOk ["Path", "Name"] [[("Path", some "/c"), ("Name", some "z")]] := by
    intro r hr
    rw [List.mem_singleton] at hr
    subst hr
    exact ⟨["/c", "z"], rfl⟩
  have hs1 : SortedByKey (rowKeyD ["Path", "Name"])
      [[("Path", some "/a"), ("Name", some "x")]] := List.pairwise_singleton _ _
  have hs2 : SortedByKey (rowKeyD ["Path", "Name"])
      [[("Path", some "/c"), ("Name", some "z")]] := List.pairwise_singleton _ _
  exact ⟨hk1, hk2, hs1, hs2,
    mergeLoop_disjoint_keys ["Path", "Name"] _ _ hk1 hk2 hs1 hs2⟩

/-- C4: on inputs that are non-decreasing by key, both the delete output
and the insert output are non-decreasing by key. -/
theorem mergeLoop_outputs_sorted (kc : List String) (l1 l2 : List Row)
    (hk1 : KeysOk kc l1) (hk2 : KeysOk kc l2)
    (hs1 : SortedByKey (rowKeyD kc) l1) (hs2 : SortedByKey (rowKeyD kc) l2) :
    ∃ p, mergeLoop kc l1 l2 = Except.ok p ∧
      SortedByKey (rowKeyD kc) p.deletes ∧ SortedByKey (rowKeyD kc) p.inserts :=
  ⟨mergeD (rowKeyD kc) l1 l2, mergeLoop_eq_mergeD kc l1 l2 hk1 hk2,
    List.Pairwise.sublist (mergeD_sublists (rowKeyD kc) l1 l2).1 hs1,
    List.Pairwise.sublist (mergeD_sublists (rowKeyD kc) l1 l2).2 hs2⟩

/-- Witness for C4: singleton streams. -/
theorem mergeLoop_outputs_sorted_witness :
    KeysOk ["Path", "Name"] [[("Path", some "/b"), ("Name", some "y")]] ∧
    KeysOk ["Path", "Name"] [[("Path", some "/c"), ("Name", some "z")]] ∧
    SortedByKey (rowKeyD ["Path", "Name"]) [[("Path", some "/b"), ("Name", some "y")]] ∧
    SortedByKey (rowKeyD ["Path", "Name"]) [[("Path", some "/c"), ("Name", some "z")]] ∧
    (∃ p, mergeLoop ["Path", "Name"] [[("Path", some "/b"), ("Name", some "y")]]
        [[("Path", some "/c"), ("Name", some "z")]] = Except.ok p ∧
      SortedByKey (rowKeyD ["Path", "Name"]) p.deletes ∧
      SortedByKey (rowKeyD ["Path", "Name"]) p.inserts) := by
  have hk1 : KeysOk ["Path", "Name"] [[("Path", some "/b"), ("Name", some "y")]] := by
    intro r hr
    rw [List.mem_singleton] at hr
    subst hr
    exact ⟨["/b", "y"], rfl⟩
  have hk2 : KeysOk ["Path", "Name"] [[("Path", some "/c"), ("Name", some "z")]] := by
    intro r hr
    rw [List.mem_singleton] at hr
    subst hr
    exact ⟨["/c", "z"], rfl⟩
  have hs1 : SortedByKey (rowKeyD ["Path", "Name"])
      [[("Path", some "/b"), ("Name", some "y")]] := List.pairwise_singleton _ _
  have hs2 : SortedByKey (rowKeyD ["Path", "Name"])
      [[("Path", some "/c"), ("Name", some "z")]] := List.pairwise_singleton _ _
  exact ⟨hk1, hk2, hs1, hs2,
    mergeLoop_outputs_sorted ["Path", "Name"] _ _ hk1 hk2 hs1 hs2⟩

/-- C8: on every pair of finite streams whose rows admit keys, the
comparison terminates with a result (the loop is a total function: every
iteration consumes at least one record); the outputs are subsequences of
the inputs (each record is written at most once), the reported counters
equal the emitted lengths, and at most one output record exists per input
record. -/
theorem mergeLoop_terminates_resources (kc : List String) (l1 l2 : List Row)
    (hk1 : KeysOk kc l1) (hk2 : KeysOk kc l2) :
    ∃ p, mergeLoop kc l1 l2 = Except.ok p ∧
      p.deletes.Sublist l1 ∧ p.inserts.Sublist l2 ∧
      p.deleteCount = p.deletes.length ∧ p.insertCount = p.inserts.length ∧
      p.deletes.length + p.inserts.length ≤ l1.length + l2.length := by
  refine ⟨mergeD (rowKeyD kc) l1 l2, mergeLoop_eq_mergeD kc l1 l2 hk1 hk2,
    (mergeD_sublists (rowKeyD kc) l1 l2).1, (mergeD_sublists (rowKeyD kc) l1 l2).2,
    (mergeD_counts (rowKeyD kc) l1 l2).1, (mergeD_counts (rowKeyD kc) l1 l2).2, ?_⟩
  have a := (mergeD_sublists (rowKeyD kc) l1 l2).1.length_le
  have b := (mergeD_sublists (rowKeyD kc) l1 l2).2.length_le
  omega

/-- Witness for C8: singleton streams. -/
theorem mergeLoop_terminates_resources_witness :
    KeysOk ["Path", "Name"] [[("Path", some "/a"), ("Name", some "x")]] ∧
    KeysOk ["Path", "Name"] [[("Path", some "/a"), ("Name", some "w")]] ∧
    (∃ p, mergeLoop ["Path", "Name"] [[("Path", some "/a"), ("Name", some "x")]]
        [[("Path", some "/a"), ("Name", some "w")]] = Except.ok p ∧
      p.deletes.Sublist [[("Path", some "/a"), ("Name", some "x")]] ∧
      p.inserts.Sublist [[("Path", some "/a"), ("Name", some "w")]] ∧
      p.deleteCount = p.deletes.length ∧ p.insertCount = p.inserts.length ∧
      p.deletes.length + p.inserts.length ≤
        [[("Path", some "/a"), ("Name", some "x")]].length +
          [[("Path", some "/a"), ("Name", some "w")]].length) := by
  have hk1 : KeysOk ["Path", "Name"] [[("Path", some "/a"), ("Name", some "x")]] := by
    intro r hr
    rw [List.mem_singleton] at hr
    subst hr
    exact ⟨["/a", "x"], rfl⟩
  have hk2 : KeysOk ["Path", "Name"] [[("Path", some "/a"), ("Name", some "w")]] := by
    intro r hr
    rw [List.mem_singleton] at hr
    subst hr
    exact ⟨["/a", "w"], rfl⟩
  exact ⟨hk1, hk2, mergeLoop_terminates_resources ["Path", "Name"] _ _ hk1 hk2⟩

/-- C9: on sorted inputs, duplicate keys are matched by count: for any key
value, the delete output holds `(occurrences in stream 1) - (occurrences
in stream 2)` records with that key (truncated at zero), and the insert
output holds the symmetric difference, so a key present in both streams
still reaches an output when its multiplicities differ. -/
theorem mergeLoop_multiplicity (kc : List String) (l1 l2 : List Row) (κ : List String)
    (hk1 : KeysOk kc l1) (hk2 : KeysOk kc l2)
    (hs1 : SortedByKey (rowKeyD kc) l1) (hs2 : SortedByKey (rowKeyD kc) l2) :
    ∃ p, mergeLoop kc l1 l2 = Except.ok p ∧
      p.deletes.countP (fun r => decide (rowKeyD kc r = κ)) =
        l1.countP (fun r => decide (rowKeyD kc r = κ)) -
          l2.countP (fun r => decide (rowKeyD kc r = κ)) ∧
      p.inserts.countP (fun r => decide (rowKeyD kc r = κ)) =
        l2.countP (fun r => decide (rowKeyD kc r = κ)) -
          l1.countP (fun r => decide (rowKeyD kc r = κ)) := by
  refine ⟨mergeD (rowKeyD kc) l1 l2, mergeLoop_eq_mergeD kc l1 l2 hk1 hk2,
    mergeD_deletes_key_count (rowKeyD kc) κ l1 l2 hs1 hs2, ?_⟩
  have h := mergeD_deletes_key_count (rowKeyD kc) κ l2 l1 hs2 hs1
  rw [mergeD_swap (rowKeyD kc) l1 l2] at h
  exact h

/-- Witness for C9: the key ("/a","x") occurs twice in stream 1 and once in
stream 2. -/
theorem mergeLoop_multiplicity_witness :
    KeysOk ["Path", "Name"]
      [[("Path", some "/a"), ("Name", some "x")], [("Path", some "/a"), ("Name", some "x")]] ∧
    KeysOk ["Path", "Name"] [[("Path", some "/a"), ("Name", some "x")]] ∧
    SortedByKey (rowKeyD ["Path", "Name"])
      [[("Path", some "/a"), ("Name", some "x")], [("Path", some "/a"), ("Name", some "x")]] ∧
    SortedByKey (rowKeyD ["Path", "Name"]) [[("Path", some "/a"), ("Name", some "x")]] ∧
    (∃ p, mergeLoop ["Path", "Name"]
        [[("Path", some "/a"), ("Name", some "x")], [("Path", some "/a"), ("Name", some "x")]]
        [[("Path", some "/a"), ("Name", some "x")]] = Except.ok p ∧
      p.deletes.countP (fun r => decide (rowKeyD ["Path", "Name"] r = ["/a", "x"])) =
        [[("Path", some "/a"), ("Name", some "x")],
          [("Path", some "/a"), ("Name", some "x")]].countP
            (fun r => decide (rowKeyD ["Path", "Name"] r = ["/a", "x"])) -
          [[("Path", some "/a"), ("Name", some "x")]].countP
            (fun r => decide (rowKeyD ["Path", "Name"] r = ["/a", "x"])) ∧
      p.inserts.countP (fun r => decide (rowKeyD ["Path", "Name"] r = ["/a", "x"])) =
        [[("Path", some "/a"), ("Name", some "x")]].countP
            (fun r => decide (rowKeyD ["Path", "Name"] r = ["/a", "x"])) -
          [[("Path", some "/a"), ("Name", some "x")],
            [("Path", some "/a"), ("Name", some "x")]].countP
              (fun r => decide (rowKeyD ["Path", "Name"] r = ["/a", "x"]))) := by
  have hk1 : KeysOk ["Path", "Name"]
      [[("Path", some "/a"), ("Name", some "x")], [("Path", some "/a"), ("Name", some "x")]] := by
    intro r hr
    rcases List.mem_cons.mp hr with h | h
    · subst h
      exact ⟨["/a", "x"], rfl⟩
    · rw [List.mem_singleton] at h
      subst h
      exact ⟨["/a", "x"], rfl⟩
  have hk2 : KeysOk ["Path", "Name"] [[("Path", some "/a"), ("Name", some "x")]] := by
    intro r hr
    rw [List.mem_singleton] at hr
    subst hr
    exact ⟨["/a", "x"], rfl⟩
  have hs1 : SortedByKey (rowKeyD ["Path", "Name"])
      [[("Path", some "/a"), ("Name", some "x")], [("Path", some "/a"), ("Name", some "x")]] := by
    rw [SortedByKey, List.pairwise_cons]
    refine ⟨?_, List.pairwise_singleton _ _⟩
    intro r hr
    rw [List.mem_singleton] at hr
    subst hr
    rfl
  have hs2 : SortedByKey (rowKeyD ["Path", "Name"])
      [[("Path", some "/a"), ("Name", some "x")]] := List.pairwise_singleton _ _
  exact ⟨hk1, hk2, hs1, hs2,
    mergeLoop_multiplicity ["Path", "Name"] _ _ ["/a", "x"] hk1 hk2 hs1 hs2⟩

/-- C5: comparing a sorted snapshot against itself (the same raw CSV as
both inputs) emits no insertions and no deletions, and both reported
counts are zero. -/
theorem compare_snapshots_self (raw : List (List String)) (p1 p2 : String)
    (kc fns : List String) (hh : raw.head? = some fns)
    (hkc : ∀ c ∈ kc, c ∈ fns) (hne : fns ≠ [])
    (hs : SortedByKey (rowKeyD kc) (dictRows fns raw.tail)) :
    compare_snapshots raw raw p1 p2 kc = Except.ok ⟨fns, fns, ⟨[], [], 0, 0⟩⟩ := by
  rw [compare_snapshots_run raw raw p1 p2 kc fns fns hh hh hkc hkc hne hne, mergeD_self]

/-- Witness for C5: a one-row snapshot compared against itself. -/
theorem compare_snapshots_self_witness :
    ([["Path", "Name"], ["/a", "x"]] : List (List String)).head? = some ["Path", "Name"] ∧
    (∀ c ∈ (["Path", "Name"] : List String), c ∈ (["Path", "Name"] : List String)) ∧
    (["Path", "Name"] : List String) ≠ [] ∧
    SortedByKey (rowKeyD ["Path", "Name"])
      (dictRows ["Path", "Name"] ([["Path", "Name"], ["/a", "x"]] : List (List String)).tail) ∧
    compare_snapshots [["Path", "Name"], ["/a", "x"]] [["Path", "Name"], ["/a", "x"]]
        "snapshot1.csv" "snapshot2.csv" ["Path", "Name"] =
      Except.ok ⟨["Path", "Name"], ["Path", "Name"], ⟨[], [], 0, 0⟩⟩ := by
  have hs : SortedByKey (rowKeyD ["Path", "Name"])
      (dictRows ["Path", "Name"] ([["Path", "Name"], ["/a", "x"]] : List (List String)).tail) := by
    have he : dictRows ["Path", "Name"] ([["Path", "Name"], ["/a", "x"]] :
        List (List String)).tail = [[("Path", some "/a"), ("Name", some "x")]] := rfl
    rw [he]
    exact List.pairwise_singleton _ _
  exact ⟨rfl, by decide, by decide, hs,
    compare_snapshots_self [["Path", "Name"], ["/a", "x"]] "snapshot1.csv" "snapshot2.csv"
      ["Path", "Name"] ["Path", "Name"] rfl (by decide) (by decide) hs⟩

/-- C6: when some key column is missing from either input header, the
comparison fails with a `MissingColumnError` whatever the data rows are
(so no data row is consumed and no output is produced), and the error
names an offending file together with exactly the key columns missing
from that file's header (snapshot 1 being checked first). -/
theorem compare_snapshots_missing_column (raw1 raw2 : List (List String))
    (p1 p2 : String) (kc fns1 fns2 : List String) (c : String)
    (h1 : raw1.head? = some fns1) (h2 : raw2.head? = some fns2)
    (hc : c ∈ kc) (hmiss : ¬ c ∈ fns1 ∨ ¬ c ∈ fns2) :
    (kc.filter (fun x => !decide (x ∈ fns1)) ≠ [] ∧
      compare_snapshots raw1 raw2 p1 p2 kc =
        Except.error (CmpError.missingColumns p1
          (kc.filter (fun x => !decide (x ∈ fns1))))) ∨
    (kc.filter (fun x => !decide (x ∈ fns1)) = [] ∧
      kc.filter (fun x => !decide (x ∈ fns2)) ≠ [] ∧
      compare_snapshots raw1 raw2 p1 p2 kc =
        Except.error (CmpError.missingColumns p2
          (kc.filter (fun x => !decide (x ∈ fns2))))) := by
  by_cases hm1 : kc.filter (fun x => !decide (x ∈ fns1)) = []
  · right
    have hk1 : ∀ x ∈ kc, x ∈ fns1 := by
      intro x hx
      by_contra hxn
      have hmem : x ∈ kc.filter (fun x => !decide (x ∈ fns1)) :=
        List.mem_filter.mpr ⟨hx, by simp [hxn]⟩
      rw [hm1] at hmem
      exact absurd hmem (List.not_mem_nil x)
    have hc2 : ¬ c ∈ fns2 := by
      rcases hmiss with h | h
      · exact absurd (hk1 c hc) h
      · exact h
    have hm2 : kc.filter (fun x => !decide (x ∈ fns2)) ≠ [] := by
      intro he
      have hmem : c ∈ kc.filter (fun x => !decide (x ∈ fns2)) :=
        List.mem_filter.mpr ⟨hc, by simp [hc2]⟩
      rw [he] at hmem
      exact absurd hmem (List.not_mem_nil c)
    refine ⟨hm1, hm2, ?_⟩
    simp only [compare_snapshots, h1, h2, validate_ok_of_subset hk1,
      validate_error_of_missing hm2]
  · left
    refine ⟨hm1, ?_⟩
    simp only [compare_snapshots, h1, validate_error_of_missing hm1]

/-- Witness for C6: "Name" is a key column but snapshot 1's header is just
["Path"]. -/
theorem compare_snapshots_missing_column_witness :
    ([["Path"], ["/a"]] : List (List String)).head? = some ["Path"] ∧
    ([["Path", "Name"], ["/a", "x"]] : List (List String)).head? = some ["Path", "Name"] ∧
    ("Name" : String) ∈ (["Path", "Name"] : List String) ∧
    (¬ ("Name" : String) ∈ (["Path"] : List String) ∨
      ¬ ("Name" : String) ∈ (["Path", "Name"] : List String)) ∧
    (((["Path", "Name"] : List String).filter (fun x => !decide (x ∈ (["Path"] : List String))) ≠ [] ∧
      compare_snapshots [["Path"], ["/a"]] [["Path", "Name"], ["/a", "x"]]
          "snapshot1.csv" "snapshot2.csv" ["Path", "Name"] =
        Except.error (CmpError.missingColumns "snapshot1.csv"
          ((["Path", "Name"] : List String).filter
            (fun x => !decide (x ∈ (["Path"] : List String)))))) ∨
    ((["Path", "Name"] : List String).filter (fun x => !decide (x ∈ (["Path"] : List String))) = [] ∧
      (["Path", "Name"] : List String).filter
        (fun x => !decide (x ∈ (["Path", "Name"] : List String))) ≠ [] ∧
      compare_snapshots [["Path"], ["/a"]] [["Path", "Name"], ["/a", "x"]]
          "snapshot1.csv" "snapshot2.csv" ["Path", "Name"] =
        Except.error (CmpError.missingColumns "snapshot2.csv"
          ((["Path", "Name"] : List String).filter
            (fun x => !decide (x ∈ (["Path", "Name"] : List String))))))) :=
  ⟨rfl, rfl, by decide, Or.inl (by decide),
    compare_snapshots_missing_column [["Path"], ["/a"]] [["Path", "Name"], ["/a", "x"]]
      "snapshot1.csv" "snapshot2.csv" ["Path", "Name"] ["Path"] ["Path", "Name"] "Name"
      rfl rfl (by decide) (Or.inl (by decide))⟩

/-- Counterexample for C7: snapshot 1 contains a data row `["/a"]` that
lacks the "Name" value entirely, yet the whole comparison completes
successfully — the `DictReader` pads the missing value with `None`, the
key becomes ("/a", "None"), it matches snapshot 2's row, and no
malformed-row error is raised. -/
theorem compare_snapshots_short_row_succeeds :
    compare_snapshots [["Path", "Name"], ["/a"]] [["Path", "Name"], ["/a", "None"]]
        "snapshot1.csv" "snapshot2.csv" ["Path", "Name"] =
      Except.ok ⟨["Path", "Name"], ["Path", "Name"], ⟨[], [], 0, 0⟩⟩ := by
  rw [compare_snapshots_run [["Path", "Name"], ["/a"]] [["Path", "Name"], ["/a", "None"]]
    "snapshot1.csv" "snapshot2.csv" ["Path", "Name"] ["Path", "Name"] ["Path", "Name"]
    rfl rfl (by decide) (by decide) (by decide) (by decide)]
  have he1 : dictRows ["Path", "Name"] ([["Path", "Name"], ["/a"]] :
      List (List String)).tail = [[("Path", some "/a"), ("Name", none)]] := rfl
  have he2 : dictRows ["Path", "Name"] ([["Path", "Name"], ["/a", "None"]] :
      List (List String)).tail = [[("Path", some "/a"), ("Name", some "None")]] := rfl
  rw [he1, he2, mergeD_cons_cons, if_pos (by rfl), mergeD_nil_right]
  rfl

/-- C7 amended: once header validation passes, the scan never raises a
malformed-row error — whatever the data rows are (short rows included),
the comparison completes successfully. -/
theorem compare_snapshots_total (raw1 raw2 : List (List String)) (p1 p2 : String)
    (kc fns1 fns2 : List String)
    (h1 : raw1.head? = some fns1) (h2 : raw2.head? = some fns2)
    (hk1 : ∀ c ∈ kc, c ∈ fns1) (hk2 : ∀ c ∈ kc, c ∈ fns2)
    (hne1 : fns1 ≠ []) (hne2 : fns2 ≠ []) :
    ∃ res, compare_snapshots raw1 raw2 p1 p2 kc = Except.ok res :=
  ⟨_, compare_snapshots_run raw1 raw2 p1 p2 kc fns1 fns2 h1 h2 hk1 hk2 hne1 hne2⟩

/-- Witness for the amended C7: the Scenario-D-style input (a row missing
the "Name" value) still completes. -/
theorem compare_snapshots_total_witness :
    ([["Path", "Name"], ["/a"]] : List (List String)).head? = some ["Path", "Name"] ∧
    ([["Path", "Name"]] : List (List String)).head? = some ["Path", "Name"] ∧
    (∀ c ∈ (["Path", "Name"] : List String), c ∈ (["Path", "Name"] : List String)) ∧
    (∀ c ∈ (["Path", "Name"] : List String), c ∈ (["Path", "Name"] : List String)) ∧
    (["Path", "Name"] : List String) ≠ [] ∧
    (["Path", "Name"] : List String) ≠ [] ∧
    (∃ res, compare_snapshots [["Path", "Name"], ["/a"]] [["Path", "Name"]]
      "snapshot1.csv" "snapshot2.csv" ["Path", "Name"] = Except.ok res) :=
  ⟨rfl, rfl, by decide, by decide, by decide, by decide,
    compare_snapshots_total [["Path", "Name"], ["/a"]] [["Path", "Name"]]
      "snapshot1.csv" "snapshot2.csv" ["Path", "Name"] ["Path", "Name"] ["Path", "Name"]
      rfl rfl (by decide) (by decide) (by decide) (by decide)⟩

/-- C10: every row the `DictReader` yields carries all header column
names (a short row is padded with `None`), so `get_row_key` never raises
`KeyError` on such a row when the key columns passed validation, and a
padded-in `None` key component is rendered as the string "None". -/
theorem dictReader_rows_total (fns cells kc : List String)
    (h : ∀ c ∈ kc, c ∈ fns) :
    (∀ c ∈ fns, ∃ v, rowGet (padRow fns cells) c = some v) ∧
    (∃ ks, get_row_key (padRow fns cells) kc = Except.ok ks) ∧
    pyStr none = "None" :=
  ⟨fun _ hc => rowGet_padRow fns cells hc, get_row_key_padRow fns cells kc h, rfl⟩

/-- Witness for C10: a row with the "Name" cell absent. -/
theorem dictReader_rows_total_witness :
    (∀ c ∈ (["Path", "Name"] : List String), c ∈ (["Path", "Name"] : List String)) ∧
    (∀ c ∈ (["Path", "Name"] : List String),
      ∃ v, rowGet (padRow ["Path", "Name"] ["/a"]) c = some v) ∧
    (∃ ks, get_row_key (padRow ["Path", "Name"] ["/a"]) ["Path", "Name"] = Except.ok ks) ∧
    pyStr none = "None" := by
  have h := dictReader_rows_total ["Path", "Name"] ["/a"] ["Path", "Name"] (by decide)
  exact ⟨by decide, h.1, h.2.1, h.2.2⟩

end CsvCompare
